import Mathlib

/-!
# Verification of the quickfuzz interactive fuzzy picker

Shallow embedding of `src/main.rs`: the scoring/filter engine
(`compute_fuzzy_find_score`, `fuzzy_find`), the selection state machine and
event loop (`run_app`), and the process wiring (`inner_main`, `main`), together
with theorems checking the specification's claims against it.
-/

namespace Quickfuzz

/-! ## Filter engine (`compute_fuzzy_find_score`, `fuzzy_find`) -/

/-- `compute_fuzzy_find_score` (src/main.rs lines 205-210): for each character
`c` of the query, count the occurrences of `c` in the subject
(`subject.chars().filter(|cc| c == *cc).count()`), and sum the counts. -/
def compute_fuzzy_find_score (query subject : String) : Nat :=
  (query.toList.map (fun c => (subject.toList.filter (fun cc => c == cc)).length)).sum

/-- The comparison key of `fuzzy_find`s `scores.sort_by_key(|(_, score)| *score)`:
`(original index, score)` pairs are compared by score alone. -/
def score_le (a b : Nat × Nat) : Prop := a.2 ≤ b.2

instance : DecidableRel score_le := fun a b => Nat.decLe a.2 b.2

instance : IsTotal (Nat × Nat) score_le := ⟨fun a b => Nat.le_total a.2 b.2⟩

instance : IsTrans (Nat × Nat) score_le := ⟨fun _ _ _ hab hbc => Nat.le_trans hab hbc⟩

/-- The `scores` vector of `fuzzy_find` before sorting (src/main.rs lines
189-194): the `(index, score)` pair of every candidate, keeping only the pairs
with `score > 0`. -/
def score_pairs (query : String) (list : List String) : List (Nat × Nat) :=
  (list.enum.map (fun p => (p.1, compute_fuzzy_find_score query p.2))).filter
    (fun p => decide (0 < p.2))

/-- The `scores` vector after `scores.sort_by_key(|(_, score)| *score)`
(src/main.rs line 196).  Rust's `sort_by_key` is a stable sort; it is modelled
by stable insertion sort ordered by the score key. -/
def fuzzy_scores (query : String) (list : List String) : List (Nat × Nat) :=
  List.insertionSort score_le (score_pairs query list)

/-- `fuzzy_find` (src/main.rs lines 184-203): the candidate list itself on an
empty query; otherwise the positively-scored candidates, stably sorted by
ascending score, read back from the original list (`list.get(i).unwrap()`,
modelled with a default that is never reached since every stored index is in
bounds). -/
def fuzzy_find (query : String) (list : List String) : List String :=
  if query.isEmpty then list
  else (fuzzy_scores query list).map (fun p => (list[p.1]?).getD "")

/-! ## Event-loop state machine (`run_app`) -/

/-- Model of the `tui_input::Input` widget: the query text and the cursor
offset. -/
structure Input where
  value : String
  cursor : Nat
deriving DecidableEq

/-- The key codes distinguished by `run_app`s dispatch: the four specifically
matched keys, the text-editing keys forwarded to the input widget, and a
stand-in for every remaining key code (also forwarded). -/
inductive KeyCode where
  | enter
  | esc
  | up
  | down
  | backspace
  | left
  | right
  | ch (c : Char)
  | otherKey
deriving DecidableEq

/-- The crossterm input-event classes seen by `run_app` (src/main.rs lines
94-142): key events, mouse events, and the remaining classes (focus
gained/lost, paste, resize) that fall into the catch-all arm. -/
inductive Event where
  | key (code : KeyCode)
  | mouse
  | focusGained
  | focusLost
  | paste (s : String)
  | resize
deriving DecidableEq

/-- Modelled from the spec: the Query Buffer operations (spec section 4.1)
performed by the external `tui_input` crate's `Input::handle_event`, which is a
dependency and not part of src/: insert the typed character at the cursor,
delete backward, move the cursor, with the cursor kept inside
`[0, len(value)]`; any other key is accepted with no effect. -/
def Input.handle_key (inp : Input) : KeyCode → Input
  | .ch c =>
    ⟨⟨inp.value.toList.take inp.cursor ++ c :: inp.value.toList.drop inp.cursor⟩,
      inp.cursor + 1⟩
  | .backspace =>
    if inp.cursor = 0 then inp
    else
      ⟨⟨inp.value.toList.take (inp.cursor - 1) ++ inp.value.toList.drop inp.cursor⟩,
        inp.cursor - 1⟩
  | .left => ⟨inp.value, inp.cursor - 1⟩
  | .right => ⟨inp.value, min (inp.cursor + 1) inp.value.length⟩
  | _ => inp

/-- The `State` struct (src/main.rs lines 212-217).  `ListState` (ratatui)
carries the selected index and a scroll offset; the offset only affects
rendering, so the selection index is modelled alone. -/
structure State where
  input_widget : Input
  list : List String
  list_state : Option Nat
  filtered : List String
deriving DecidableEq

/-- Selection reconciliation at the top of each loop iteration (src/main.rs
lines 76-90): an out-of-range selected index is replaced by
`filtered.len().max(1) - 1`; an absent selection becomes `Some(0)` when
`filtered` is non-empty. -/
def reconcile_selection (selected : Option Nat) (filtered : List String) : Option Nat :=
  match selected with
  | some sel =>
    if sel ≥ filtered.length then some (max filtered.length 1 - 1) else some sel
  | none => if filtered.isEmpty then none else some 0

/-- The head of each loop iteration (src/main.rs lines 74-92): recompute
`filtered` from the current query, reconcile the selection, then render (the
draw does not change the state). -/
def iterate (s : State) : State :=
  let filtered := fuzzy_find s.input_widget.value s.list
  { s with
      filtered := filtered
      list_state := reconcile_selection s.list_state filtered }

/-- Result of dispatching one input event (src/main.rs lines 94-142): continue
the loop, return successfully, return an error, or abort the process — the
latter from the out-of-bounds index `state.filtered[selected]` in the `Enter`
arm or from the `todo!()` in the `Mouse` arm. -/
inductive StepResult where
  | cont (s : State)
  | ok (chosen : String)
  | err (msg : String)
  | panic
deriving DecidableEq

/-- The event dispatch of `run_app` (src/main.rs lines 94-142). -/
def dispatch (s : State) : Event → StepResult
  | .key .enter =>
    match s.list_state with
    | some selected =>
      match s.filtered[selected]? with
      | some chosen => .ok chosen
      | none => .panic
    | none => .cont s
  | .key .esc => .err "User cancelled"
  | .key .up =>
    .cont
      (match s.list_state with
        | some selected =>
          if 0 < selected then { s with list_state := some (selected - 1) } else s
        | none =>
          if s.filtered.isEmpty then s
          else { s with list_state := some (s.filtered.length - 1) })
  | .key .down =>
    .cont
      (match s.list_state with
        | some selected =>
          if selected + 1 < s.filtered.length then
            { s with list_state := some (selected + 1) }
          else s
        | none =>
          if s.filtered.isEmpty then s else { s with list_state := some 0 })
  | .key code => .cont { s with input_widget := s.input_widget.handle_key code }
  | .mouse => .panic
  | _ => .cont s

/-- Outcome of running the event loop on a finite queue of input events: the
loop returned `Ok`, returned `Err`, panicked, or consumed every event and is
blocked waiting for the next one in the shown state. -/
inductive RunResult where
  | pending (s : State)
  | ok (chosen : String)
  | error (msg : String)
  | panic
deriving DecidableEq

/-- The `run_app` loop (src/main.rs lines 69-144) driven by a finite queue of
input events: each iteration recomputes `filtered` and reconciles the selection
(`iterate`), renders, then blocks for the next event and dispatches it. -/
def run_app (s : State) : List Event → RunResult
  | [] => .pending (iterate s)
  | e :: rest =>
    match dispatch (iterate s) e with
    | .cont next => run_app next rest
    | .ok chosen => .ok chosen
    | .err msg => .error msg
    | .panic => .panic

/-- The initial state built in `inner_main` (src/main.rs lines 45-53):
default (empty) input widget, the candidate list read from stdin, default
(unselected) list state, empty `filtered`. -/
def initial_state (list : List String) : State :=
  { input_widget := ⟨"", 0⟩, list := list, list_state := none, filtered := [] }

/-! ## Process wiring (`main`, `inner_main`) -/

/-- The terminal-mode commands issued by `inner_main`. -/
inductive TermCmd where
  | enableRawMode
  | enterAlternateScreen
  | enableMouseCapture
  | disableRawMode
  | leaveAlternateScreen
  | disableMouseCapture
  | showCursor
deriving DecidableEq

/-- The terminal acquisition commands run before the event loop
(src/main.rs lines 33-39). -/
def setup_cmds : List TermCmd :=
  [.enableRawMode, .enterAlternateScreen, .enableMouseCapture]

/-- The terminal release commands run after the event loop returns `Ok`
(src/main.rs lines 55-62). -/
def teardown_cmds : List TermCmd :=
  [.disableRawMode, .leaveAlternateScreen, .disableMouseCapture, .showCursor]

/-- Effect model of `inner_main` (src/main.rs lines 30-67) as a function of the
event loop's outcome (reading stdin and the terminal I/O calls themselves are
assumed to succeed): the terminal commands issued in order, the bytes printed
to stdout, and the returned value.  The `?` on `run_app` returns early on
`Err`, before any teardown command and before the `print!`. -/
def inner_main (run_app_result : Except String String) :
    List TermCmd × Option String × Except String Unit :=
  match run_app_result with
  | .error e => (setup_cmds, none, .error e)
  | .ok chosen => (setup_cmds ++ teardown_cmds, some chosen, .ok ())

/-- Model of `std::process::ExitCode` as reported by `main`. -/
inductive ExitStatus where
  | success
  | failure
deriving DecidableEq

/-- `main` (src/main.rs lines 20-28) as a function of the event loop's outcome:
the process exit status, the bytes written to stdout, and the message written
to stderr (`eprintln!` on the error path). -/
def main_outcome (run_app_result : Except String String) :
    ExitStatus × Option String × Option String :=
  match inner_main run_app_result with
  | (_, out, .ok ()) => (.success, out, none)
  | (_, out, .error e) => (.failure, out, some e)

/-! ## Claims about the event loop and process wiring -/

/-- C1: the claim states that after reconciliation the selection is `None`
whenever `filtered` is empty, and that a stale `Some(i)` with empty `filtered`
transitions to `Unselected`.  The code instead selects
`Some(filtered.len().max(1) - 1) = Some(0)`: after typing `z` over the
candidate list `["a"]`, the loop blocks in a state whose `filtered` is empty
while the selection is `Some 0`. -/
theorem claim1_reconciliation_keeps_selection_on_empty :
    reconcile_selection (some 0) [] = some 0 ∧
    run_app (initial_state ["a"]) [Event.key (KeyCode.ch 'z')] =
      RunResult.pending ⟨⟨"z", 1⟩, ["a"], some 0, []⟩ := by
  constructor
  · rfl
  · decide

/-- C2: the claim states that Enter with selection `Some(i)` always terminates
the loop successfully with `filtered[i]`.  In the reachable state where the
selection is `Some 0` while `filtered` is empty (list `["a"]`, after typing
`z`), the indexing `state.filtered[selected]` is out of bounds and the process
panics instead. -/
theorem claim2_confirm_panics_out_of_bounds :
    run_app (initial_state ["a"]) [Event.key (KeyCode.ch 'z'), Event.key KeyCode.enter] =
      RunResult.panic ∧
    dispatch ⟨⟨"z", 1⟩, ["a"], some 0, []⟩ (Event.key KeyCode.enter) =
      StepResult.panic := by
  constructor
  · decide
  · rfl

/-- C3 counterexample: on the cancellation exit path (`run_app` returned
`Err "User cancelled"`), none of the four teardown commands is executed —
`inner_main` propagates the error with `?` before reaching them, refuting the
claim that they run on every exit path. -/
theorem claim3_counterexample_no_teardown_on_cancel :
    (inner_main (Except.error "User cancelled")).1 =
      [TermCmd.enableRawMode, TermCmd.enterAlternateScreen, TermCmd.enableMouseCapture] ∧
    TermCmd.disableRawMode ∉ (inner_main (Except.error "User cancelled")).1 ∧
    TermCmd.leaveAlternateScreen ∉ (inner_main (Except.error "User cancelled")).1 ∧
    TermCmd.disableMouseCapture ∉ (inner_main (Except.error "User cancelled")).1 ∧
    TermCmd.showCursor ∉ (inner_main (Except.error "User cancelled")).1 := by
  decide

/-- C3 amended: the teardown commands (disable raw mode, leave the alternate
screen, disable mouse capture, show the cursor) run exactly on the success
path; on cancellation or any error propagated out of the event loop, the early
return skips all of them. -/
theorem claim3_teardown_only_on_success (e chosen : String) :
    (inner_main (Except.error e)).1 = setup_cmds ∧
    (inner_main (Except.ok chosen)).1 = setup_cmds ++ teardown_cmds ∧
    teardown_cmds =
      [TermCmd.disableRawMode, TermCmd.leaveAlternateScreen,
        TermCmd.disableMouseCapture, TermCmd.showCursor] :=
  ⟨rfl, rfl, rfl⟩

/-- C7: in every state, a mouse event reaches the `todo!()` arm: the dispatch
aborts the process (panic) rather than returning an error or continuing the
loop. -/
theorem claim7_mouse_event_panics (s : State) (rest : List Event) :
    dispatch s Event.mouse = StepResult.panic ∧
    run_app s (Event.mouse :: rest) = RunResult.panic :=
  ⟨rfl, rfl⟩

/-- C8: the Move Up / Move Down transitions of the dispatch, in every state:
Up decrements a positive selected index, leaves index 0 unchanged, jumps from
no selection to the last filtered entry when one exists and stays unselected
otherwise; Down increments a selected index that is not last, leaves the last
index unchanged, jumps from no selection to index 0 when the filtered list is
non-empty and stays unselected otherwise. -/
theorem claim8_move_up_down (s : State) :
    (∀ i, s.list_state = some i → 0 < i →
      dispatch s (Event.key KeyCode.up) =
        StepResult.cont { s with list_state := some (i - 1) }) ∧
    (s.list_state = some 0 →
      dispatch s (Event.key KeyCode.up) = StepResult.cont s) ∧
    (s.list_state = none → s.filtered ≠ [] →
      dispatch s (Event.key KeyCode.up) =
        StepResult.cont { s with list_state := some (s.filtered.length - 1) }) ∧
    (s.list_state = none → s.filtered = [] →
      dispatch s (Event.key KeyCode.up) = StepResult.cont s) ∧
    (∀ i, s.list_state = some i → i + 1 < s.filtered.length →
      dispatch s (Event.key KeyCode.down) =
        StepResult.cont { s with list_state := some (i + 1) }) ∧
    (∀ i, s.list_state = some i → i + 1 = s.filtered.length →
      dispatch s (Event.key KeyCode.down) = StepResult.cont s) ∧
    (s.list_state = none → s.filtered ≠ [] →
      dispatch s (Event.key KeyCode.down) = StepResult.cont { s with list_state := some 0 }) ∧
    (s.list_state = none → s.filtered = [] →
      dispatch s (Event.key KeyCode.down) = StepResult.cont s) := by
  refine ⟨?_, ?_, ?_, ?_, ?_, ?_, ?_, ?_⟩
  · intro i hsel hi
    simp [dispatch, hsel, hi]
  · intro hsel
    simp [dispatch, hsel]
  · intro hsel hne
    simp [dispatch, hsel, hne]
  · intro hsel hemp
    simp [dispatch, hsel, hemp]
  · intro i hsel hi
    simp [dispatch, hsel, hi]
  · intro i hsel hi
    simp [dispatch, hsel, ← hi]
  · intro hsel hne
    simp [dispatch, hsel, hne]
  · intro hsel hemp
    simp [dispatch, hsel, hemp]

/-- Witness for C8 at a concrete state: Move Up from `Selected 1` over a
two-entry filtered list yields `Selected 0`. -/
theorem claim8_witness :
    dispatch ⟨⟨"", 0⟩, ["a", "b"], some 1, ["a", "b"]⟩ (Event.key KeyCode.up) =
      StepResult.cont ⟨⟨"", 0⟩, ["a", "b"], some 0, ["a", "b"]⟩ :=
  (claim8_move_up_down _).1 1 rfl (by decide)

/-- C9: from every state and whatever events follow, Esc makes the loop return
the cancellation error immediately; `main` then reports a failure exit status,
writes nothing to stdout, and writes the human-readable message to stderr. -/
theorem claim9_cancel_outcome (s : State) (rest : List Event) :
    run_app s (Event.key KeyCode.esc :: rest) = RunResult.error "User cancelled" ∧
    main_outcome (Except.error "User cancelled") =
      (ExitStatus.failure, none, some "User cancelled") :=
  ⟨rfl, rfl⟩

/-- C10: events that are neither key nor mouse events (focus gained/lost,
paste, resize) fall into the catch-all arm: the dispatch leaves the state —
query buffer, candidate list, selection, filtered list — unchanged and the
loop proceeds to its next iteration. -/
theorem claim10_other_events_noop (s : State) (str : String) (rest : List Event) :
    dispatch s Event.focusGained = StepResult.cont s ∧
    dispatch s Event.focusLost = StepResult.cont s ∧
    dispatch s Event.resize = StepResult.cont s ∧
    dispatch s (Event.paste str) = StepResult.cont s ∧
    run_app s (Event.resize :: rest) = run_app (iterate s) rest :=
  ⟨rfl, rfl, rfl, rfl, rfl⟩

/-! ## Claims about the filter engine -/

/-- C6: for every candidate list `L`, the empty query is the identity:
`fuzzy_find "" L = L`, same elements in the same order. -/
theorem claim6_empty_query_identity (L : List String) : fuzzy_find "" L = L := by
  simp [fuzzy_find, String.isEmpty_iff]

/-- C5: the score of a query against a candidate is the sum, over the
characters of the query, of the number of occurrences of that character in the
candidate; it is invariant under permutation of the query, additive in the
query (so a repeated query character contributes once per repetition), and
case-sensitive; and on the spec's example, the scores are 3, 3, 2 and
`fuzzy_find "ap"` returns `["grape", "apple", "banana"]`. -/
theorem claim5_score_characterisation :
    (∀ q s : String,
      compute_fuzzy_find_score q s = (q.toList.map (fun c => s.toList.count c)).sum) ∧
    (∀ q₁ q₂ s : String, q₁.toList.Perm q₂.toList →
      compute_fuzzy_find_score q₁ s = compute_fuzzy_find_score q₂ s) ∧
    (∀ q₁ q₂ s : String,
      compute_fuzzy_find_score (q₁ ++ q₂) s =
        compute_fuzzy_find_score q₁ s + compute_fuzzy_find_score q₂ s) ∧
    compute_fuzzy_find_score "a" "A" = 0 ∧
    compute_fuzzy_find_score "A" "A" = 1 ∧
    compute_fuzzy_find_score "ap" "apple" = 3 ∧
    compute_fuzzy_find_score "ap" "banana" = 3 ∧
    compute_fuzzy_find_score "ap" "grape" = 2 ∧
    fuzzy_find "ap" ["apple", "banana", "grape"] = ["grape", "apple", "banana"] := by
  refine ⟨?_, ?_, ?_, by decide, by decide, by decide, by decide, by decide, by decide⟩
  · intro q s
    unfold compute_fuzzy_find_score
    congr 1
    apply List.map_congr_left
    intro c _
    rw [List.count_eq_countP, List.countP_eq_length_filter]
    congr 1
    apply List.filter_congr
    intro cc _
    exact Bool.beq_comm
  · intro q₁ q₂ s h
    exact (h.map _).sum_eq
  · intro q₁ q₂ s
    unfold compute_fuzzy_find_score
    rw [show (q₁ ++ q₂).toList = q₁.toList ++ q₂.toList from rfl,
      List.map_append, List.sum_append]

/-- Witness for C5's permutation hypothesis at concrete inputs: the queries
`"ab"` and `"ba"` score equally against `"grape"`. -/
theorem claim5_witness :
    compute_fuzzy_find_score "ab" "grape" = compute_fuzzy_find_score "ba" "grape" :=
  claim5_score_characterisation.2.1 "ab" "ba" "grape" (by decide)

/-! Supporting lemmas for C4: elements of `score_pairs` record an in-bounds
index of the candidate list together with that candidate's (positive) score,
the recorded indices are strictly increasing, and reading the indices back
yields exactly the positively-scored candidates in list order. -/

theorem mem_score_pairs {q : String} {L : List String} {p : Nat × Nat}
    (hp : p ∈ score_pairs q L) :
    ∃ x, L[p.1]? = some x ∧ p.2 = compute_fuzzy_find_score q x ∧ 0 < p.2 := by
  unfold score_pairs at hp
  obtain ⟨hmem, hpos⟩ := List.mem_filter.mp hp
  obtain ⟨e, he, rfl⟩ := List.mem_map.mp hmem
  exact ⟨e.2, List.mem_enum_iff_getElem?.mp he, rfl, by simpa using hpos⟩

theorem score_getD_of_mem_score_pairs {q : String} {L : List String} {p : Nat × Nat}
    (hp : p ∈ score_pairs q L) :
    compute_fuzzy_find_score q ((L[p.1]?).getD "") = p.2 := by
  obtain ⟨x, hx, hscore, -⟩ := mem_score_pairs hp
  rw [hx, Option.getD_some, hscore]

theorem pairwise_fst_lt_score_pairs (q : String) (L : List String) :
    (score_pairs q L).Pairwise (fun a b => a.1 < b.1) := by
  unfold score_pairs
  apply List.Pairwise.filter
  rw [List.pairwise_map]
  have h : (List.map Prod.fst L.enum).Pairwise (· < ·) := by
    rw [List.enum_map_fst]
    exact List.pairwise_lt_range _
  rw [List.pairwise_map] at h
  exact h

theorem map_getD_score_pairs (q : String) (L : List String) :
    (score_pairs q L).map (fun p => (L[p.1]?).getD "") =
      L.filter (fun s => decide (0 < compute_fuzzy_find_score q s)) := by
  have h1 : score_pairs q L =
      (L.enum.filter (fun p => decide (0 < compute_fuzzy_find_score q p.2))).map
        (fun p => (p.1, compute_fuzzy_find_score q p.2)) := by
    unfold score_pairs
    rw [List.filter_map]
    rfl
  rw [h1, List.map_map]
  have h2 : ∀ p ∈ L.enum.filter (fun p => decide (0 < compute_fuzzy_find_score q p.2)),
      ((fun p : Nat × Nat => (L[p.1]?).getD "") ∘
        (fun p : Nat × String => (p.1, compute_fuzzy_find_score q p.2))) p = Prod.snd p := by
    intro p hp
    have hp' : p ∈ L.enum := List.mem_of_mem_filter hp
    have hget := List.mem_enum_iff_getElem?.mp hp'
    simp [Function.comp, hget]
  rw [List.map_congr_left h2]
  have h3 := List.filter_map (p := fun s => decide (0 < compute_fuzzy_find_score q s))
    Prod.snd L.enum
  rw [List.enum_map_snd] at h3
  exact h3.symm

/-! Stability of the stable sort over `(index, score)` pairs: inserting into a
list that is sorted by score with strictly increasing indices among equal
scores — provided the inserted index is below every index present — keeps
that shape, hence the whole sort produces a list sorted by score in which
equal scores keep their original index order. -/

/-- Strict score-then-index order on `(index, score)` pairs. -/
def score_lex (a b : Nat × Nat) : Prop := a.2 < b.2 ∨ (a.2 = b.2 ∧ a.1 < b.1)

theorem orderedInsert_pairwise_lex (x : Nat × Nat) (l : List (Nat × Nat))
    (hl : l.Pairwise score_lex) (hx : ∀ y ∈ l, x.1 < y.1) :
    (List.orderedInsert score_le x l).Pairwise score_lex := by
  induction l with
  | nil => simp
  | cons b u ih =>
    rw [List.pairwise_cons] at hl
    obtain ⟨hb, hu⟩ := hl
    by_cases hxb : score_le x b
    · rw [List.orderedInsert, if_pos hxb]
      refine List.Pairwise.cons ?_ (List.Pairwise.cons hb hu)
      intro z hz
      rcases List.mem_cons.mp hz with rfl | hzu
      · rcases Nat.lt_or_eq_of_le hxb with hlt | heq
        · exact Or.inl hlt
        · exact Or.inr ⟨heq, hx z (List.mem_cons_self _ _)⟩
      · have hbz : b.2 ≤ z.2 := by
          rcases hb z hzu with hlt | ⟨heq, -⟩
          · exact Nat.le_of_lt hlt
          · exact Nat.le_of_eq heq
        rcases Nat.lt_or_eq_of_le (Nat.le_trans hxb hbz) with hlt | heq
        · exact Or.inl hlt
        · exact Or.inr ⟨heq, hx z (List.mem_cons_of_mem b hzu)⟩
    · rw [List.orderedInsert, if_neg hxb]
      refine List.Pairwise.cons ?_ (ih hu (fun y hy => hx y (List.mem_cons_of_mem b hy)))
      intro z hz
      rcases (List.mem_orderedInsert score_le).mp hz with rfl | hzu
      · exact Or.inl (Nat.lt_of_not_le hxb)
      · exact hb z hzu

theorem insertionSort_pairwise_lex (l : List (Nat × Nat))
    (hl : l.Pairwise (fun a b => a.1 < b.1)) :
    (List.insertionSort score_le l).Pairwise score_lex := by
  induction l with
  | nil => simp
  | cons x t ih =>
    rw [List.pairwise_cons] at hl
    obtain ⟨hx, ht⟩ := hl
    rw [List.insertionSort]
    refine orderedInsert_pairwise_lex x _ (ih ht) ?_
    intro y hy
    exact hx y ((List.mem_insertionSort score_le).mp hy)

/-- C4: for a non-empty query, `fuzzy_find q L` consists of exactly the
candidates of `L` with positive score (a permutation of that filtered
subsequence, elements unaltered), ordered ascending by score; and in the sorted
`(index, score)` pairs, pairs of equal score keep their original index order
(stability). -/
theorem claim4_filter_subsequence_sorted_stable (q : String) (L : List String)
    (h : q ≠ "") :
    (fuzzy_find q L).Perm
      (L.filter (fun s => decide (0 < compute_fuzzy_find_score q s))) ∧
    (fuzzy_find q L).Pairwise
      (fun a b => compute_fuzzy_find_score q a ≤ compute_fuzzy_find_score q b) ∧
    (fuzzy_scores q L).Pairwise (fun a b => a.2 = b.2 → a.1 < b.1) := by
  have hne : q.isEmpty = false := by
    rcases Bool.eq_false_or_eq_true q.isEmpty with hf | ht
    · exact absurd ((String.isEmpty_iff q).mp hf) h
    · exact ht
  have hfind : fuzzy_find q L = (fuzzy_scores q L).map (fun p => (L[p.1]?).getD "") := by
    unfold fuzzy_find
    rw [hne]
    simp
  refine ⟨?_, ?_, ?_⟩
  · rw [hfind, ← map_getD_score_pairs q L]
    exact (List.perm_insertionSort score_le (score_pairs q L)).map _
  · rw [hfind, List.pairwise_map]
    have hsorted : (fuzzy_scores q L).Pairwise score_le :=
      List.sorted_insertionSort score_le (score_pairs q L)
    refine hsorted.imp_of_mem ?_
    intro a b ha hb hab
    have ha' : a ∈ score_pairs q L := (List.mem_insertionSort score_le).mp ha
    have hb' : b ∈ score_pairs q L := (List.mem_insertionSort score_le).mp hb
    rw [score_getD_of_mem_score_pairs ha', score_getD_of_mem_score_pairs hb']
    exact hab
  · have hlex :=
      insertionSort_pairwise_lex (score_pairs q L) (pairwise_fst_lt_score_pairs q L)
    refine hlex.imp ?_
    intro a b hab heq
    rcases hab with hlt | ⟨-, hidx⟩
    · exact absurd heq (Nat.ne_of_lt hlt)
    · exact hidx

/-- Witness for C4 at the spec's example: query `"ap"` over
`["apple", "banana", "grape"]`. -/
theorem claim4_witness :
    (fuzzy_find "ap" ["apple", "banana", "grape"]).Perm
      (["apple", "banana", "grape"].filter
        (fun s => decide (0 < compute_fuzzy_find_score "ap" s))) ∧
    (fuzzy_find "ap" ["apple", "banana", "grape"]).Pairwise
      (fun a b => compute_fuzzy_find_score "ap" a ≤ compute_fuzzy_find_score "ap" b) ∧
    (fuzzy_scores "ap" ["apple", "banana", "grape"]).Pairwise
      (fun a b => a.2 = b.2 → a.1 < b.1) :=
  claim4_filter_subsequence_sorted_stable "ap" ["apple", "banana", "grape"] (by decide)

end Quickfuzz
